import Mathlib

/-!
Verification of the `conway-rs` simulation engine and session layer.

The definitions below are a shallow embedding of the Rust sources:
  - `src/conway/src/point.rs`   → `Point`
  - `src/conway/src/grid.rs`    → `Grid` and its operations
  - `src/conway/src/game.rs`    → `Viewport`, `Settings`, `Game`, `split_int`
  - `src/conway/src/config.rs`  → `Settings` defaults, `GameConfig`
  - `src/conway-app/src/pubsub.rs` → `Msg`, `Cmd`, `Server` (the session
    state machine; this is the revision whose `GameConfig`/message model
    matches `src/conway/src/config.rs`)

Machine integers (`i64`, `u64`, `usize`) are modelled as `Int`/`Nat`;
none of the verified properties concern wrap-around behaviour.
`HashSet<Point>` is modelled as `Finset Point` (the source only relies on
set semantics; the one iteration-order-sensitive loop, `calculate_bounds`,
computes an order-independent min/max fold).
-/

deriving instance DecidableEq for Except

/-- `Point(pub i64, pub i64)` from point.rs. Field `x` is the Rust `.0`,
`y` is `.1`. -/
structure Point where
  x : Int
  y : Int
deriving DecidableEq

/-- `Point::origin` from point.rs. -/
def Point.origin : Point := ⟨0, 0⟩

/-- `impl ops::Add for Point` (component-wise). -/
instance : Add Point := ⟨fun a b => ⟨a.x + b.x, a.y + b.y⟩⟩

/-- `impl ops::Sub for Point` (component-wise). -/
instance : Sub Point := ⟨fun a b => ⟨a.x - b.x, a.y - b.y⟩⟩

theorem Point.add_def (a b : Point) : a + b = ⟨a.x + b.x, a.y + b.y⟩ := rfl

theorem Point.sub_def (a b : Point) : a - b = ⟨a.x - b.x, a.y - b.y⟩ := rfl

/-- `struct Grid { cells: HashSet<Point> }` from grid.rs. -/
structure Grid where
  cells : Finset Point
deriving DecidableEq

/-- `Grid::new(cells: Vec<Point>)` from grid.rs: collect the list into a set. -/
def Grid.new (cells : List Point) : Grid := ⟨cells.toFinset⟩

/-- `Grid::is_alive` from grid.rs: membership in the live set. -/
def Grid.is_alive (g : Grid) (cell : Point) : Bool := cell ∈ g.cells

/-- `Grid::is_empty` from grid.rs. -/
def Grid.is_empty (g : Grid) : Bool := g.cells = ∅

/-- `Grid::clear` from grid.rs (functional form: the cleared grid). -/
def Grid.clear (_g : Grid) : Grid := ⟨∅⟩

/-- `Grid::adjacent_cells` from grid.rs: the 8 points at Chebyshev
distance 1 from `cell` (the loop over `dx, dy ∈ {-1,0,1}` skipping
`(0,0)`, written out as the resulting set). The `&self` argument is
unused in the source and omitted here. -/
def Grid.adjacent_cells (cell : Point) : Finset Point :=
  { ⟨cell.x - 1, cell.y - 1⟩, ⟨cell.x - 1, cell.y⟩, ⟨cell.x - 1, cell.y + 1⟩,
    ⟨cell.x, cell.y - 1⟩, ⟨cell.x, cell.y + 1⟩,
    ⟨cell.x + 1, cell.y - 1⟩, ⟨cell.x + 1, cell.y⟩, ⟨cell.x + 1, cell.y + 1⟩ }

/-- `Grid::live_neighbors` from grid.rs: count the live points among the
8 adjacent cells. -/
def Grid.live_neighbors (g : Grid) (point : Point) : Nat :=
  ((Grid.adjacent_cells point).filter (fun c => g.is_alive c = true)).card

/-- `Grid::active_cells` from grid.rs: every live cell together with all
of its adjacent cells. -/
def Grid.active_cells (g : Grid) : Finset Point :=
  g.cells.biUnion (fun cell => insert cell (Grid.adjacent_cells cell))

/-- `Grid::calculate_bounds` from grid.rs (called `bounds()` by game.rs):
the bounding box `(min corner, max corner)` of the live cells, both
corners the origin when the grid is empty.  The source's single pass
keeps a running min/max, which is iteration-order independent, so it is
embedded directly as the min/max of each coordinate. -/
def Grid.bounds (g : Grid) : Point × Point :=
  if h : g.cells.Nonempty then
    (⟨(g.cells.image Point.x).min' (h.image Point.x),
      (g.cells.image Point.y).min' (h.image Point.y)⟩,
     ⟨(g.cells.image Point.x).max' (h.image Point.x),
      (g.cells.image Point.y).max' (h.image Point.y)⟩)
  else (Point.origin, Point.origin)

/-- `split_int` from game.rs: `num_integer::Integer::div_rem` is
*truncated* division (Rust `/` and `%`), so `Int.tdiv`/`Int.tmod`. -/
def split_int (n : Int) : Int × Int :=
  let quotient := n.tdiv 2
  let remainder := n.tmod 2
  (quotient, quotient + remainder)

/-- Modelled from the spec: `Grid::midpoint` is called by
`Game::viewport_centered` (game.rs line 204) but no definition of it
appears under src/ (src/grid.rs is a revision without it).  Per the
spec, centering targets the "midpoint-of-live-cells", i.e. the midpoint
of the live-cell bounding box (§4.2, glossary "Centered view"), and the
§8 centered test vector (natural size 4×3 starting at x=2 centered in a
width-10 window yields left edge -1) fixes the rounding: each extent is
halved with `split_int`, the remainder going to the second half. -/
def Grid.midpoint (g : Grid) : Point :=
  let b := g.bounds
  ⟨b.1.x + (split_int (b.2.x - b.1.x)).2, b.1.y + (split_int (b.2.y - b.1.y)).2⟩

/-- `enum View` from game.rs. -/
inductive View where
  | Centered
  | Fixed
  | Follow
deriving DecidableEq

/-- `struct Settings` in the game.rs revision (`opts.width`/`opts.height`
are `Option<u64>` there; the config.rs revision carries the same two
options beside the settings as `bounds`).  `delay` is the tick delay in
milliseconds; it is never consulted by any embedded operation. -/
structure Settings where
  delay : Nat
  view : View
  width : Option Nat
  height : Option Nat
  char_alive : Char
  char_dead : Char
deriving DecidableEq

/-- `impl Default for Settings` from config.rs: 500 ms delay, centered
view, `DEFAULT_CHAR_ALIVE`/`DEFAULT_CHAR_DEAD` glyphs, no explicit
width/height. -/
def Settings.default : Settings :=
  { delay := 500, view := View.Centered, width := none, height := none,
    char_alive := '#', char_dead := '-' }

/-- `struct Viewport` from game.rs. -/
structure Viewport where
  origin : Point
  scroll : Point
  width : Nat
  height : Nat
deriving DecidableEq

/-- `Viewport::fixed` from game.rs: window anchored at `origin + scroll`,
extending `width-1`/`height-1` further in x/y. -/
def Viewport.fixed (v : Viewport) : Point × Point :=
  let p := v.origin + v.scroll
  (p, ⟨p.x + (v.width : Int) - 1, p.y + (v.height : Int) - 1⟩)

/-- `Viewport::centered` from game.rs: window centered on `midpoint`,
each dimension split with `split_int`. -/
def Viewport.centered (v : Viewport) (midpoint : Point) : Point × Point :=
  let dx := split_int (v.width : Int)
  let dy := split_int (v.height : Int)
  (⟨midpoint.x - dx.1, midpoint.y - dy.1⟩,
   ⟨midpoint.x + dx.2 - 1, midpoint.y + dy.2 - 1⟩)

/-- `struct Game` from game.rs. -/
structure Game where
  grid : Grid
  swap : Grid
  opts : Settings
  viewport : Viewport
deriving DecidableEq

/-- `Game::viewport_centered` from game.rs. -/
def Game.viewport_centered (g : Game) : Point × Point :=
  g.viewport.centered g.grid.midpoint

/-- `Game::center_viewport` from game.rs: set `scroll` to the offset
from the stored origin to the top-left corner of the centered window. -/
def Game.center_viewport (g : Game) : Game :=
  { g with viewport :=
      { g.viewport with scroll := (g.viewport_centered).1 - g.viewport.origin } }

/-- `Game::new` from game.rs: empty scratch grid, viewport sized from
the settings or from the bounding box (`(x1 - x0 + 1) as u64`, always
nonnegative), anchored at the box's min corner with zero scroll — and
then `center_viewport()` is called unconditionally before returning. -/
def Game.new (grid : Grid) (opts : Settings) : Game :=
  let b := grid.bounds
  let viewport : Viewport :=
    { origin := b.1,
      width := opts.width.getD (b.2.x - b.1.x + 1).toNat,
      height := opts.height.getD (b.2.y - b.1.y + 1).toNat,
      scroll := Point.origin }
  Game.center_viewport { grid := grid, swap := ⟨∅⟩, opts := opts, viewport := viewport }

/-- `Game::survives` from game.rs: a live cell survives with 2 or 3 live
neighbors; a dead cell is born with exactly 3. -/
def Game.survives (g : Game) (cell : Point) : Bool :=
  let live_neighbors := g.grid.live_neighbors cell
  if g.grid.is_alive cell then
    live_neighbors = 2 || live_neighbors = 3
  else
    live_neighbors = 3

/-- `Game::tick` from game.rs: insert every surviving active cell into
the scratch grid, clear the live grid, and swap the two.  The new live
grid is therefore the old scratch contents plus the survivors, and the
new scratch grid is empty. -/
def Game.tick (g : Game) : Game :=
  { g with
    grid := ⟨g.swap.cells ∪ (g.grid.active_cells).filter (fun c => g.survives c = true)⟩,
    swap := ⟨∅⟩ }

/-- `Game::is_over` from game.rs: the grid holds no live points. -/
def Game.is_over (g : Game) : Bool := g.grid.is_empty

/-- `Game::scroll` from game.rs. -/
def Game.scroll (g : Game) (dx dy : Int) : Game :=
  { g with viewport := { g.viewport with scroll := g.viewport.scroll + ⟨dx, dy⟩ } }

/-- `Game::scroll_to` from game.rs. -/
def Game.scroll_to (g : Game) (point : Point) : Game :=
  { g with viewport := { g.viewport with scroll := point } }

/-- `Game::reset_grid` from game.rs: replace the live grid only (the
scratch grid is untouched). -/
def Game.reset_grid (g : Game) (grid : Grid) : Game :=
  { g with grid := grid }

/-
Rendering (game.rs `draw`/`draw_viewport`) and parsing (grid.rs
`impl FromStr for Grid`).  Rust strings are modelled at the `List Char`
level; `String` enters only at the outermost boundary (`String.mk`/
`String.data`), so Rust's `trim`/`lines` are embedded as explicit
character-list functions rather than Lean's `String` primitives.
-/

/-- One row of `Game::draw_viewport`: the characters for
`x0, x0+1, …` (`w` columns) at row `y`. -/
def renderRow (g : Grid) (ca cd : Char) (x0 : Int) (w : Nat) (y : Int) : List Char :=
  (List.range w).map (fun (i : Nat) => if g.is_alive ⟨x0 + (i : Int), y⟩ then ca else cd)

/-- Join rows, each followed by the `'\n'` that `draw_viewport` pushes
after every row. -/
def joinRows (rows : List (List Char)) : List Char :=
  (rows.map (fun r => r ++ ['\n'])).flatten

/-- The full character output of `Game::draw_viewport` for the window
`(p0, p1)`: rows `y0..=y1`, columns `x0..=x1` (`(b - a + 1).toNat`
matches the inclusive Rust range, empty when `p1` is left of/above
`p0`). -/
def renderChars (g : Grid) (ca cd : Char) (p0 p1 : Point) : List Char :=
  let w := (p1.x + 1 - p0.x).toNat
  let h := (p1.y + 1 - p0.y).toNat
  joinRows ((List.range h).map (fun (j : Nat) => renderRow g ca cd p0.x w (p0.y + (j : Int))))

/-- `Game::draw_viewport` from game.rs. -/
def Game.draw_viewport (g : Game) (window : Point × Point) : String :=
  String.mk (renderChars g.grid g.opts.char_alive g.opts.char_dead window.1 window.2)

/-- `Game::viewport()` from game.rs (the *method*; the field of the same
name is `Game.viewport`).  The `View::Follow` arm is `unimplemented!()`
in the source (a panic), modelled as `none`. -/
def Game.viewport' (g : Game) : Option (Point × Point) :=
  match g.opts.view with
  | View.Fixed => some g.viewport.fixed
  | View.Centered => some g.viewport_centered
  | View.Follow => none

/-- `Game::draw` from game.rs, `none` when the view mode is `Follow`
(where the source panics). -/
def Game.draw? (g : Game) : Option String :=
  (g.viewport').map g.draw_viewport

/-- Total wrapper for `Game::draw` used by the session layer; the
`Follow` panic is modelled as the empty string (no session claim
depends on the rendered text of a `Follow` game). -/
def Game.draw (g : Game) : String := (g.draw?).getD ""

/-- `READ_CHAR_ALIVE` from grid.rs: the parser's fixed alive glyph. -/
def READ_CHAR_ALIVE : Char := 'x'

/-- `READ_CHAR_DEAD` from grid.rs: the parser's fixed dead glyph. -/
def READ_CHAR_DEAD : Char := '.'

/-- Rust `str::trim` on the left: drop leading whitespace. -/
def ltrimChars (cs : List Char) : List Char := cs.dropWhile Char.isWhitespace

/-- Rust `str::trim` on the right: drop trailing whitespace. -/
def rtrimChars (cs : List Char) : List Char :=
  (cs.reverse.dropWhile Char.isWhitespace).reverse

/-- Rust `str::trim`: drop whitespace from both ends. -/
def trimChars (cs : List Char) : List Char := rtrimChars (ltrimChars cs)

/-- Split on `'\n'` (every occurrence separates two lines). -/
def splitOnNl : List Char → List (List Char)
  | [] => [[]]
  | c :: rest =>
    if c = '\n' then [] :: splitOnNl rest
    else
      match splitOnNl rest with
      | [] => [[c]]
      | r :: rs => (c :: r) :: rs

/-- Rust `str::lines` on trimmed input (which never ends in `'\n'`):
no lines for the empty string, otherwise split on `'\n'`. -/
def linesChars (cs : List Char) : List (List Char) :=
  if cs.isEmpty then [] else splitOnNl cs

/-- One row of `<Grid as FromStr>::from_str`: column `x` onward of row
`y`; `READ_CHAR_ALIVE` yields a live point, `READ_CHAR_DEAD` is
skipped, anything else is an error naming the character (quotes around
the character are omitted from the message text here). -/
def parseRowAux (y : Nat) : Nat → List Char → Except String (List Point)
  | _, [] => Except.ok []
  | x, ch :: rest =>
    if ch = READ_CHAR_ALIVE then
      match parseRowAux y (x + 1) rest with
      | Except.ok ps => Except.ok (⟨(x : Int), (y : Int)⟩ :: ps)
      | Except.error e => Except.error e
    else if ch = READ_CHAR_DEAD then
      parseRowAux y (x + 1) rest
    else
      Except.error ("unknown character: " ++ String.mk [ch])

/-- The rows loop of `<Grid as FromStr>::from_str`, `y` counting the
(already comment-filtered) rows. -/
def parseLinesAux (y : Nat) : List (List Char) → Except String (List Point)
  | [] => Except.ok []
  | row :: rows =>
    match parseRowAux y 0 row with
    | Except.error e => Except.error e
    | Except.ok ps =>
      match parseLinesAux (y + 1) rows with
      | Except.error e => Except.error e
      | Except.ok qs => Except.ok (ps ++ qs)

/-- `<Grid as FromStr>::from_str` at the character level: trim, split
into lines, drop `#`-comment lines, then scan row-major. -/
def Grid.fromChars (cs : List Char) : Except String Grid :=
  let rows := (linesChars (trimChars cs)).filter (fun l => !(l.head? = some '#' : Bool))
  match parseLinesAux 0 rows with
  | Except.error e => Except.error e
  | Except.ok ps => Except.ok (Grid.new ps)

/-- `<Grid as FromStr>::from_str` from grid.rs. -/
def Grid.fromStr (s : String) : Except String Grid := Grid.fromChars s.data

/-- Total mirror of `parseRowAux` on well-formed rows: the live points a
row contributes (used to state what the parser returns). -/
def rowPoints (y : Nat) : Nat → List Char → List Point
  | _, [] => []
  | x, ch :: rest =>
    if ch = READ_CHAR_ALIVE then ⟨(x : Int), (y : Int)⟩ :: rowPoints y (x + 1) rest
    else rowPoints y (x + 1) rest

/-- Total mirror of `parseLinesAux` on well-formed rows. -/
def linesPoints (y : Nat) : List (List Char) → List Point
  | [] => []
  | row :: rows => rowPoints y 0 row ++ linesPoints (y + 1) rows

/-- Rows joined by single interior newlines (the shape of a rendered
frame after `trim`). -/
def intercalateNl : List (List Char) → List Char
  | [] => []
  | [r] => r
  | r :: rows => r ++ '\n' :: intercalateNl rows

/-
The session layer, from src/conway-app/src/pubsub.rs (the revision whose
`GameConfig` matches src/conway/src/config.rs).  The outbound sink is
modelled as the list of messages pushed to the queue while handling one
command; `queue.flush` hands exactly that list to the transport.
-/

/-- `enum Message` from conway-app pubsub.rs (specialised to `String`
payloads, as every pushed message is). -/
inductive Msg where
  | Connected : String → Msg
  | Status : String → Msg
  | Grid : String → Msg
  | Error : String → Msg
deriving DecidableEq

/-- `struct GameConfig` from config.rs: settings, a pattern text, and
optional explicit bounds.  In the game.rs revision embedded here the
bounds travel inside `Settings` as `width`/`height`, so `build` writes
them there. -/
structure GameConfig where
  settings : Settings
  pattern : String
  bounds : Option Nat × Option Nat

/-- `GameConfig::build` from config.rs: parse the pattern (which may
fail) and construct the game. -/
def GameConfig.build (c : GameConfig) : Except String Game :=
  match Grid.fromStr c.pattern with
  | Except.error e => Except.error e
  | Except.ok grid =>
    Except.ok (Game.new grid
      { c.settings with width := c.bounds.1, height := c.bounds.2 })

/-- `enum Cmd` from conway-app pubsub.rs. -/
inductive Cmd where
  | Ping
  | Step
  | Play
  | Pause
  | Scroll : Int → Int → Cmd
  | Center
  | NewGrid : GameConfig → Cmd
  | Restart

/-- `struct Server` from conway-app pubsub.rs: the game behind the
mutex, the snapshot kept for `Restart`, and the paused flag. -/
structure Server where
  game : Game
  initialGame : Game
  paused : Bool

/-- `Server::new` from conway-app pubsub.rs: an empty 50×50 fixed-view
game with `x`/`.` glyphs and 100 ms delay, snapshotted as the initial
game, starting paused. -/
def Server.new : Server :=
  let game := Game.new (Grid.new [])
    { delay := 100, view := View.Fixed, width := some 50, height := some 50,
      char_alive := 'x', char_dead := '.' }
  { game := game, initialGame := game, paused := true }

/-- `Server::next_turn` from conway-app pubsub.rs: push a stabilization
status first if the grid is (already) empty, then tick unconditionally
and push the new frame. -/
def Server.next_turn (game : Game) : Game × List Msg :=
  let pre := if game.is_over then [Msg.Status "Grid has stabilized."] else []
  let g := game.tick
  (g, pre ++ [Msg.Grid g.draw])

/-- `Server::on_message` from conway-app pubsub.rs (the per-command
dispatch; JSON decoding errors are outside `Cmd` and not modelled).
Note the `NewGrid` arm: after the `match` on `config.build()` —
whether it succeeded or not — the source unconditionally runs
`self.initial_game = game.clone()` and pushes the status and the
frame. -/
def Server.on_message (s : Server) (c : Cmd) : Server × List Msg :=
  match c with
  | Cmd.Ping =>
    if !s.paused then
      let r := Server.next_turn s.game
      ({ s with game := r.1 }, r.2)
    else (s, [])
  | Cmd.Step =>
    if s.paused then
      let r := Server.next_turn s.game
      ({ s with game := r.1 }, r.2)
    else ({ s with paused := true }, [])
  | Cmd.Play =>
    if s.paused then
      let r := Server.next_turn s.game
      ({ s with paused := false, game := r.1 }, r.2)
    else (s, [])
  | Cmd.Pause => ({ s with paused := true }, [])
  | Cmd.Scroll dx dy =>
    let g := s.game.scroll dx dy
    ({ s with game := g }, [Msg.Grid g.draw])
  | Cmd.Center =>
    let g := s.game.center_viewport
    ({ s with game := g }, [Msg.Grid g.draw])
  | Cmd.NewGrid config =>
    match config.build with
    | Except.ok new_game =>
      ({ s with game := new_game, initialGame := new_game },
       [Msg.Status "Started a new game.", Msg.Grid new_game.draw])
    | Except.error err =>
      ({ s with initialGame := s.game },
       [Msg.Error err, Msg.Status "Started a new game.", Msg.Grid s.game.draw])
  | Cmd.Restart =>
    ({ s with game := s.initialGame },
     [Msg.Status "Restarted the current game.", Msg.Grid s.initialGame.draw])

/-- The games reachable through the public `Game` API: constructed by
`Game::new` and evolved by any sequence of `tick`, `scroll`,
`scroll_to`, `center_viewport` and `reset_grid`. -/
inductive Game.Reachable : Game → Prop where
  | new (grid : Grid) (opts : Settings) : Game.Reachable (Game.new grid opts)
  | tick {g : Game} : Game.Reachable g → Game.Reachable g.tick
  | scroll {g : Game} (dx dy : Int) : Game.Reachable g → Game.Reachable (g.scroll dx dy)
  | scroll_to {g : Game} (p : Point) : Game.Reachable g → Game.Reachable (g.scroll_to p)
  | center_viewport {g : Game} : Game.Reachable g → Game.Reachable g.center_viewport
  | reset_grid {g : Game} (grid : Grid) : Game.Reachable g → Game.Reachable (g.reset_grid grid)

/-
Concrete instances used by witnesses and counterexamples.
-/

/-- The vertical blinker `{(1,0),(1,1),(1,2)}` from the spec's §8. -/
def blinkerGrid : Grid := Grid.new [⟨1, 0⟩, ⟨1, 1⟩, ⟨1, 2⟩]

/-- A game holding the blinker, under the default settings of
config.rs. -/
def blinkerGame : Game := Game.new blinkerGrid Settings.default

/-- A `NewGrid` configuration whose pattern fails to parse (the
character `a` is neither glyph). -/
def brokenConfig : GameConfig :=
  { settings := Settings.default, pattern := "a", bounds := (none, none) }

/-- A session whose game has advanced one tick past the snapshot kept
for `Restart`. -/
def tickedSession : Server :=
  { game := blinkerGame.tick, initialGame := blinkerGame, paused := true }

/-- A single live cell away from the coordinate origin, rendered with
the parser's own glyphs (fixed 1×1 view anchored at `(5,5)`). -/
def farCellGame : Game :=
  Game.new (Grid.new [⟨5, 5⟩])
    { Settings.default with view := View.Fixed, char_alive := 'x', char_dead := '.' }

/-- A single live cell rendered with a configured alive glyph (`o`)
that the parser does not accept. -/
def oGlyphGame : Game :=
  Game.new (Grid.new [⟨0, 0⟩])
    { Settings.default with view := View.Fixed, char_alive := 'o', char_dead := '.' }

/-- The blinker under a fixed view with the parser's own glyphs. -/
def fixedBlinkerGame : Game :=
  Game.new blinkerGrid
    { Settings.default with view := View.Fixed, char_alive := 'x', char_dead := '.' }

/-
Helper lemmas.
-/

theorem split_int_sum (n : Int) : (split_int n).1 + (split_int n).2 = n := by
  simp only [split_int]
  have := Int.tdiv_add_tmod n 2
  omega

theorem mem_adjacent_cells {p q : Point} :
    q ∈ Grid.adjacent_cells p ↔
      (q ≠ p ∧ p.x - 1 ≤ q.x ∧ q.x ≤ p.x + 1 ∧ p.y - 1 ≤ q.y ∧ q.y ≤ p.y + 1) := by
  obtain ⟨qx, qy⟩ := q
  obtain ⟨px, py⟩ := p
  simp only [Grid.adjacent_cells, Finset.mem_insert, Finset.mem_singleton, Point.mk.injEq,
    ne_eq]
  omega

theorem adjacent_cells_comm {p q : Point} :
    q ∈ Grid.adjacent_cells p ↔ p ∈ Grid.adjacent_cells q := by
  rw [mem_adjacent_cells, mem_adjacent_cells]
  obtain ⟨qx, qy⟩ := q
  obtain ⟨px, py⟩ := p
  simp only [ne_eq, Point.mk.injEq]
  omega

theorem mem_active_cells {g : Grid} {p : Point} :
    p ∈ g.active_cells ↔ ∃ c ∈ g.cells, p = c ∨ p ∈ Grid.adjacent_cells c := by
  simp [Grid.active_cells, Finset.mem_biUnion, Finset.mem_insert]

theorem survives_iff (g : Game) (p : Point) :
    g.survives p = true ↔
      ((g.grid.is_alive p = true ∧
          (g.grid.live_neighbors p = 2 ∨ g.grid.live_neighbors p = 3)) ∨
       (g.grid.is_alive p = false ∧ g.grid.live_neighbors p = 3)) := by
  cases h : g.grid.is_alive p <;> simp [Game.survives, h]

theorem center_viewport_fixed (g : Game) :
    (g.center_viewport).viewport.fixed = g.viewport_centered := by
  obtain ⟨grid, swap, opts, vp⟩ := g
  obtain ⟨o, sc, w, h⟩ := vp
  have hw := split_int_sum (w : Int)
  have hh := split_int_sum (h : Int)
  simp only [Game.center_viewport, Game.viewport_centered, Viewport.fixed, Viewport.centered,
    Point.add_def, Point.sub_def, Prod.mk.injEq, Point.mk.injEq]
  refine ⟨⟨by omega, by omega⟩, by omega, by omega⟩

/-
C7 — `split_int`.
-/

/-- C7 (corrected): `split_int(n)` returns `(q, q + r)` for `q = n quot 2`,
`r = n rem 2` under *truncating-toward-zero* division (Rust `/`/`%`, i.e.
`num_integer::Integer::div_rem`), so the halves always sum to `n`;
`split_int(30) = (15,15)`, `(31) = (15,16)`, `(0) = (0,0)`, `(1) = (0,1)`,
`(7) = (3,4)`, and `(-1) = (0,-1)` (not `(-1,0)` as floor division would
give). -/
theorem split_int_truncates :
    (∀ n : Int,
      split_int n = (n.tdiv 2, n.tdiv 2 + n.tmod 2) ∧
      (split_int n).1 + (split_int n).2 = n) ∧
    split_int 30 = (15, 15) ∧ split_int 31 = (15, 16) ∧ split_int 0 = (0, 0) ∧
    split_int 1 = (0, 1) ∧ split_int 7 = (3, 4) ∧ split_int (-1) = (0, -1) :=
  ⟨fun n => ⟨rfl, split_int_sum n⟩,
   by decide, by decide, by decide, by decide, by decide, by decide⟩

/-- C7 counterexample: under the claimed floor-division semantics
`split_int(-1)` would be `(-1, 0)`; the code returns `(0, -1)`. -/
theorem split_int_floor_cex : split_int (-1) = (0, -1) ∧ split_int (-1) ≠ (-1, 0) := by
  decide

/-
C8 — closure property of `active_cells`.
-/

/-- C8 (confirmed): `active_cells(G)` contains every live point of `G`,
and every point outside `active_cells(G)` is dead and has zero live
neighbors. -/
theorem active_cells_closure :
    ∀ (g : Grid) (p : Point),
      (p ∈ g.cells → p ∈ g.active_cells) ∧
      (p ∉ g.active_cells → p ∉ g.cells ∧ g.live_neighbors p = 0) := by
  intro g p
  constructor
  · intro hp
    exact mem_active_cells.mpr ⟨p, hp, Or.inl rfl⟩
  · intro hp
    constructor
    · intro hmem
      exact hp (mem_active_cells.mpr ⟨p, hmem, Or.inl rfl⟩)
    · rw [Grid.live_neighbors, Finset.card_eq_zero, Finset.filter_eq_empty_iff]
      intro q hq
      simp only [Grid.is_alive, decide_eq_true_eq]
      intro hqg
      exact hp (mem_active_cells.mpr ⟨q, hqg, Or.inr (adjacent_cells_comm.mp hq)⟩)

/-- C8 witness: instantiated on the blinker at a live point and at a far
point. -/
theorem active_cells_closure_witness :
    (⟨1, 1⟩ : Point) ∈ blinkerGrid.active_cells ∧
    ((⟨9, 9⟩ : Point) ∉ blinkerGrid.cells ∧ blinkerGrid.live_neighbors ⟨9, 9⟩ = 0) :=
  ⟨(active_cells_closure blinkerGrid ⟨1, 1⟩).1 (by decide),
   (active_cells_closure blinkerGrid ⟨9, 9⟩).2 (by decide)⟩

/-
C1 — `tick` computes exactly the survivors of the prior generation.
-/

/-- C1 (confirmed): for every Game whose scratch grid is empty (the
invariant maintained by the whole API, cf. the C10 theorem), `tick`
replaces the live grid with exactly the active cells of the prior
generation that satisfy the standard rule, all evaluated against the
prior grid; and one tick of the blinker `{(1,0),(1,1),(1,2)}` yields
exactly `{(0,1),(1,1),(2,1)}`. -/
theorem tick_exact_survivors :
    (∀ g : Game, g.swap.cells = ∅ → ∀ p : Point,
      (p ∈ g.tick.grid.cells ↔
        p ∈ g.grid.active_cells ∧
          ((g.grid.is_alive p = true ∧
              (g.grid.live_neighbors p = 2 ∨ g.grid.live_neighbors p = 3)) ∨
           (g.grid.is_alive p = false ∧ g.grid.live_neighbors p = 3)))) ∧
    (Game.new (Grid.new [⟨1, 0⟩, ⟨1, 1⟩, ⟨1, 2⟩]) Settings.default).tick.grid
      = Grid.new [⟨0, 1⟩, ⟨1, 1⟩, ⟨2, 1⟩] := by
  constructor
  · intro g hswap p
    show p ∈ g.swap.cells ∪ _ ↔ _
    rw [hswap, Finset.empty_union, Finset.mem_filter, survives_iff]
  · decide

/-- C1 witness: the general part instantiated on the blinker game at the
newborn cell `(0,1)`. -/
theorem tick_exact_survivors_witness :
    blinkerGame.swap.cells = ∅ ∧
    ((⟨0, 1⟩ : Point) ∈ blinkerGame.tick.grid.cells ↔
      (⟨0, 1⟩ : Point) ∈ blinkerGame.grid.active_cells ∧
        ((blinkerGame.grid.is_alive ⟨0, 1⟩ = true ∧
            (blinkerGame.grid.live_neighbors ⟨0, 1⟩ = 2 ∨
             blinkerGame.grid.live_neighbors ⟨0, 1⟩ = 3)) ∨
         (blinkerGame.grid.is_alive ⟨0, 1⟩ = false ∧
            blinkerGame.grid.live_neighbors ⟨0, 1⟩ = 3))) :=
  ⟨by decide, tick_exact_survivors.1 blinkerGame (by decide) ⟨0, 1⟩⟩

/-
C5 — `Game::new`.
-/

/-- C5 counterexample: a `Fixed`-view game built by `Game::new` does not
keep zero scroll — `new` centers the viewport unconditionally.  With
cells `{(0,0),(3,0)}` and an explicit 10×1 window, the initial scroll is
`(-3, 0)`. -/
theorem game_new_zero_scroll_cex :
    (Game.new (Grid.new [⟨0, 0⟩, ⟨3, 0⟩])
        { Settings.default with view := View.Fixed, width := some 10, height := some 1 }).opts.view
      = View.Fixed ∧
    (Game.new (Grid.new [⟨0, 0⟩, ⟨3, 0⟩])
        { Settings.default with view := View.Fixed, width := some 10, height := some 1 }).viewport.scroll
      ≠ Point.origin := by
  decide

/-- C5 (corrected): `Game::new(grid, settings)` sets the viewport
width/height from the settings when given, otherwise from the grid's
bounding box; anchors the viewport origin at the box's top-left corner;
and then centers the viewport *unconditionally* — for every view mode,
not only `Centered` — so the scroll of the fresh game is the offset from
the origin to the centered window's corner and `fixed()` already equals
the centered window. -/
theorem game_new_spec :
    ∀ (grid : Grid) (opts : Settings),
      (Game.new grid opts).grid = grid ∧
      (Game.new grid opts).swap.cells = ∅ ∧
      (Game.new grid opts).opts = opts ∧
      (Game.new grid opts).viewport.origin = grid.bounds.1 ∧
      (Game.new grid opts).viewport.width
        = opts.width.getD (grid.bounds.2.x - grid.bounds.1.x + 1).toNat ∧
      (Game.new grid opts).viewport.height
        = opts.height.getD (grid.bounds.2.y - grid.bounds.1.y + 1).toNat ∧
      (Game.new grid opts).viewport.scroll
        = (Game.new grid opts).viewport_centered.1 - (Game.new grid opts).viewport.origin ∧
      (Game.new grid opts).viewport.fixed = (Game.new grid opts).viewport_centered := by
  intro grid opts
  refine ⟨rfl, rfl, rfl, rfl, rfl, rfl, rfl, ?_⟩
  exact center_viewport_fixed _

/-
C6 — centering.
-/

/-- C6 (confirmed, with `Grid::midpoint` modelled from the spec): after
`center_viewport()` the `fixed()` window coincides with the window
`centered(midpoint-of-live-cells)` produces, and `center_viewport` is
idempotent. -/
theorem center_viewport_spec :
    ∀ g : Game, g.grid.cells.Nonempty →
      (g.center_viewport).viewport.fixed = (g.center_viewport).viewport_centered ∧
      (g.center_viewport).center_viewport = g.center_viewport := by
  intro g _
  refine ⟨?_, rfl⟩
  rw [center_viewport_fixed]
  rfl

/-- C6 witness: instantiated on the blinker game. -/
theorem center_viewport_spec_witness :
    blinkerGame.grid.cells.Nonempty ∧
    ((blinkerGame.center_viewport).viewport.fixed
        = (blinkerGame.center_viewport).viewport_centered ∧
     (blinkerGame.center_viewport).center_viewport = blinkerGame.center_viewport) :=
  ⟨by decide, center_viewport_spec blinkerGame (by decide)⟩

/-
C10 — the scratch grid is empty between operations.
-/

/-- C10 (confirmed): every game produced by `Game::new` and evolved by
any sequence of `tick`, `scroll`, `scroll_to`, `center_viewport` and
`reset_grid` has an empty scratch grid, so each tick writes the
survivors into an empty scratch grid and the post-tick live set is
exactly the survivor set of the prior generation, with no residue. -/
theorem swap_empty_invariant :
    ∀ g : Game, Game.Reachable g →
      g.swap.cells = ∅ ∧
      g.tick.grid.cells = (g.grid.active_cells).filter (fun c => g.survives c = true) := by
  intro g hg
  have hswap : g.swap.cells = ∅ := by
    induction hg with
    | new grid opts => rfl
    | tick h ih => rfl
    | scroll dx dy h ih => exact ih
    | scroll_to p h ih => exact ih
    | center_viewport h ih => exact ih
    | reset_grid grid h ih => exact ih
  refine ⟨hswap, ?_⟩
  show g.swap.cells ∪ _ = _
  rw [hswap, Finset.empty_union]

/-- C10 witness: instantiated on a freshly constructed blinker game. -/
theorem swap_empty_invariant_witness :
    blinkerGame.swap.cells = ∅ ∧
    blinkerGame.tick.grid.cells
      = (blinkerGame.grid.active_cells).filter (fun c => blinkerGame.survives c = true) :=
  swap_empty_invariant blinkerGame (Game.Reachable.new blinkerGrid Settings.default)

/-
C2 — the session state machine.
-/

/-- C2 (confirmed, against conway-app's `Server::on_message`): a Session
starts Paused; `Ping` while Paused changes nothing and emits nothing;
`Ping` while Playing ticks once and emits a frame; `Step` while Paused
ticks once, emits a frame and stays Paused; `Step` while Playing just
pauses, with no tick and no message; `Play` while Paused starts playing,
ticks once and emits a frame; `Play` while Playing is a no-op; `Pause`
always pauses without ticking or emitting. -/
theorem session_state_machine :
    Server.new.paused = true ∧
    ∀ s : Server,
      (s.paused = true → s.on_message Cmd.Ping = (s, [])) ∧
      (s.paused = false →
        (s.on_message Cmd.Ping).1.game = s.game.tick ∧
        (s.on_message Cmd.Ping).1.paused = false ∧
        Msg.Grid (s.game.tick.draw) ∈ (s.on_message Cmd.Ping).2) ∧
      (s.paused = true →
        (s.on_message Cmd.Step).1.game = s.game.tick ∧
        (s.on_message Cmd.Step).1.paused = true ∧
        Msg.Grid (s.game.tick.draw) ∈ (s.on_message Cmd.Step).2) ∧
      (s.paused = false → s.on_message Cmd.Step = ({ s with paused := true }, [])) ∧
      (s.paused = true →
        (s.on_message Cmd.Play).1.paused = false ∧
        (s.on_message Cmd.Play).1.game = s.game.tick ∧
        Msg.Grid (s.game.tick.draw) ∈ (s.on_message Cmd.Play).2) ∧
      (s.paused = false → s.on_message Cmd.Play = (s, [])) ∧
      s.on_message Cmd.Pause = ({ s with paused := true }, []) := by
  refine ⟨rfl, fun s => ?_⟩
  refine ⟨fun hp => ?_, fun hp => ?_, fun hp => ?_, fun hp => ?_, fun hp => ?_, fun hp => ?_, ?_⟩
  · simp [Server.on_message, hp]
  · simp [Server.on_message, Server.next_turn, hp]
  · simp [Server.on_message, Server.next_turn, hp]
  · simp [Server.on_message, hp]
  · simp [Server.on_message, Server.next_turn, hp]
  · simp [Server.on_message, hp]
  · simp [Server.on_message]

/-- C2 witness: the `Ping`-while-Paused transition instantiated on the
freshly connected server. -/
theorem session_state_machine_witness :
    Server.new.on_message Cmd.Ping = (Server.new, []) :=
  (session_state_machine.2 Server.new).1 rfl

/-
C4 — `Ping` while Playing on an empty grid.
-/

/-- C4 counterexample: on the empty (stabilized) grid, `Ping` while
Playing *does* emit a `Grid` frame (after the stabilization `Status`),
contradicting the claim that no frame is emitted and no tick applied. -/
theorem ping_stabilized_cex :
    ({ Server.new with paused := false } : Server).game.is_over = true ∧
    Msg.Grid (({ Server.new with paused := false } : Server).game.tick.draw)
      ∈ (({ Server.new with paused := false } : Server).on_message Cmd.Ping).2 := by
  constructor
  · decide
  · have h : ({ Server.new with paused := false } : Server).game.is_over = true := by decide
    simp [Server.on_message, Server.next_turn, h]

/-- C4 (corrected): when the grid is empty and the Session receives
`Ping` while Playing, it emits the stabilization `Status` message
*followed by a `Grid` frame*, and the tick it still applies leaves the
already-empty grid empty (given the scratch-grid invariant). -/
theorem ping_stabilized_spec :
    ∀ s : Server, s.paused = false → s.game.is_over = true →
      s.on_message Cmd.Ping
        = ({ s with game := s.game.tick },
           [Msg.Status "Grid has stabilized.", Msg.Grid (s.game.tick.draw)]) ∧
      (s.game.swap.cells = ∅ → (s.on_message Cmd.Ping).1.game.grid.cells = ∅) := by
  intro s hp hover
  constructor
  · simp [Server.on_message, Server.next_turn, hp, hover]
  · intro hswap
    have hcells : s.game.grid.cells = ∅ := by
      have := of_decide_eq_true hover
      exact this
    simp [Server.on_message, Server.next_turn, hp, Game.tick, hswap, hcells,
      Grid.active_cells]

/-- C4 witness: instantiated on the playing server with the empty
grid. -/
theorem ping_stabilized_spec_witness :
    ({ Server.new with paused := false } : Server).on_message Cmd.Ping
      = ({ { Server.new with paused := false } with
            game := ({ Server.new with paused := false } : Server).game.tick },
         [Msg.Status "Grid has stabilized.",
          Msg.Grid (({ Server.new with paused := false } : Server).game.tick.draw)]) ∧
    (({ Server.new with paused := false } : Server).game.swap.cells = ∅ →
      ((({ Server.new with paused := false } : Server).on_message Cmd.Ping).1.game.grid.cells = ∅)) :=
  ping_stabilized_spec { Server.new with paused := false } rfl (by decide)

/-
C3 — a failed `NewGrid`.
-/

/-- C3 (code bug, evaluated at the failing input): handling `NewGrid`
with an unparsable pattern emits the `Error` message and leaves the
current game untouched, but — contrary to the claim and §7 of the spec —
the source then unconditionally runs `self.initial_game = game.clone()`
(and even pushes `Status "Started a new game."`), overwriting the
`Restart` snapshot with the *current* game, so a later `Restart`
restores the ticked state rather than the pattern of the last successful
`NewGrid`/construction. -/
theorem newGrid_failure_clobbers_snapshot :
    brokenConfig.build = Except.error "unknown character: a" ∧
    (tickedSession.on_message (Cmd.NewGrid brokenConfig)).1.game = blinkerGame.tick ∧
    Msg.Error "unknown character: a"
      ∈ (tickedSession.on_message (Cmd.NewGrid brokenConfig)).2 ∧
    Msg.Status "Started a new game."
      ∈ (tickedSession.on_message (Cmd.NewGrid brokenConfig)).2 ∧
    (tickedSession.on_message (Cmd.NewGrid brokenConfig)).1.initialGame = blinkerGame.tick ∧
    blinkerGame.tick ≠ blinkerGame ∧
    ((tickedSession.on_message (Cmd.NewGrid brokenConfig)).1.on_message Cmd.Restart).1.game
      = blinkerGame.tick := by
  have hb : brokenConfig.build = Except.error "unknown character: a" := by decide
  refine ⟨hb, ?_, ?_, ?_, ?_, by decide, ?_⟩ <;>
    simp [Server.on_message, hb, tickedSession]

/-
Plumbing for C9: trim/lines behaviour on rendered frames.
-/

theorem dropWhile_eq_self_of_head {p : Char → Bool} :
    ∀ l : List Char, (∀ c ∈ l, p c = false) → l.dropWhile p = l := by
  intro l h
  cases l with
  | nil => rfl
  | cons c t => simp [List.dropWhile_cons, h c (List.mem_cons_self c t)]

theorem dropWhile_append_of_ne_nil {p : Char → Bool} :
    ∀ a b : List Char, a.dropWhile p ≠ [] →
      (a ++ b).dropWhile p = a.dropWhile p ++ b := by
  intro a b h
  induction a with
  | nil => simp at h
  | cons c t ih =>
    by_cases hc : p c = true
    · rw [List.cons_append, List.dropWhile_cons_of_pos hc]
      rw [List.dropWhile_cons_of_pos hc] at h ⊢
      exact ih h
    · have hc' : p c = false := by simpa using hc
      rw [List.cons_append, List.dropWhile_cons_of_neg (by simp [hc']),
        List.dropWhile_cons_of_neg (by simp [hc'])]
      simp

theorem splitOnNl_ne_nil : ∀ cs : List Char, splitOnNl cs ≠ [] := by
  intro cs
  induction cs with
  | nil => simp [splitOnNl]
  | cons c rest ih =>
    by_cases hc : c = '\n'
    · simp [splitOnNl, hc]
    · simp only [splitOnNl, if_neg hc]
      cases hr : splitOnNl rest with
      | nil => simp
      | cons r rs => simp

theorem splitOnNl_no_nl : ∀ cs : List Char, '\n' ∉ cs → splitOnNl cs = [cs] := by
  intro cs h
  induction cs with
  | nil => rfl
  | cons c rest ih =>
    have hc : ¬ c = '\n' := fun hc => h (hc ▸ List.mem_cons_self c rest)
    have hrest : '\n' ∉ rest := fun hr => h (List.mem_cons_of_mem c hr)
    simp only [splitOnNl, if_neg hc, ih hrest]

theorem splitOnNl_append :
    ∀ r z : List Char, '\n' ∉ r → splitOnNl (r ++ '\n' :: z) = r :: splitOnNl z := by
  intro r z h
  induction r with
  | nil => simp [splitOnNl]
  | cons c t ih =>
    have hc : ¬ c = '\n' := fun hc => h (hc ▸ List.mem_cons_self c t)
    have ht : '\n' ∉ t := fun hr => h (List.mem_cons_of_mem c hr)
    simp only [List.cons_append, splitOnNl, if_neg hc]
    rw [show t.append ('\n' :: z) = t ++ '\n' :: z from rfl, ih ht]

theorem joinRows_nil : joinRows [] = [] := rfl

theorem joinRows_cons (r : List Char) (rs : List (List Char)) :
    joinRows (r :: rs) = r ++ '\n' :: joinRows rs := by
  simp [joinRows]

theorem intercalateNl_cons_cons (r s : List Char) (t : List (List Char)) :
    intercalateNl (r :: s :: t) = r ++ '\n' :: intercalateNl (s :: t) := by
  rfl

theorem intercalateNl_ne_nil (s : List Char) (t : List (List Char)) (hs : s ≠ []) :
    intercalateNl (s :: t) ≠ [] := by
  cases t with
  | nil => simpa [intercalateNl] using hs
  | cons u v => simp [intercalateNl_cons_cons]

theorem rtrim_joinRows :
    ∀ rows : List (List Char), rows ≠ [] →
      (∀ r ∈ rows, r ≠ [] ∧ ∀ c ∈ r, c.isWhitespace = false) →
      rtrimChars (joinRows rows) = intercalateNl rows := by
  intro rows
  induction rows with
  | nil => intro h; exact absurd rfl h
  | cons r rest ih =>
    intro _ hwf
    obtain ⟨hr, hrc⟩ := hwf r (List.mem_cons_self r rest)
    cases rest with
    | nil =>
      rw [joinRows_cons, joinRows_nil, rtrimChars]
      rw [List.reverse_append, List.reverse_cons, List.reverse_nil, List.nil_append,
        List.singleton_append, List.dropWhile_cons_of_pos (by decide)]
      rw [dropWhile_eq_self_of_head r.reverse (fun c hc => hrc c (List.mem_reverse.mp hc))]
      simp [intercalateNl]
    | cons s t =>
      have hrest : (s :: t) ≠ [] := by simp
      have hwfrest : ∀ q ∈ s :: t, q ≠ [] ∧ ∀ c ∈ q, c.isWhitespace = false :=
        fun q hq => hwf q (List.mem_cons_of_mem r hq)
      have hI := ih hrest hwfrest
      have hs : s ≠ [] := (hwfrest s (List.mem_cons_self s t)).1
      have hIne : intercalateNl (s :: t) ≠ [] := intercalateNl_ne_nil s t hs
      rw [joinRows_cons, intercalateNl_cons_cons, rtrimChars]
      rw [List.reverse_append, List.reverse_cons]
      rw [List.append_assoc, List.singleton_append]
      have hdropJ : (joinRows (s :: t)).reverse.dropWhile Char.isWhitespace
          = (intercalateNl (s :: t)).reverse := by
        have : ((joinRows (s :: t)).reverse.dropWhile Char.isWhitespace).reverse
            = intercalateNl (s :: t) := hI
        calc (joinRows (s :: t)).reverse.dropWhile Char.isWhitespace
            = (((joinRows (s :: t)).reverse.dropWhile Char.isWhitespace).reverse).reverse := by
              rw [List.reverse_reverse]
          _ = (intercalateNl (s :: t)).reverse := by rw [this]
      have hdropJne : (joinRows (s :: t)).reverse.dropWhile Char.isWhitespace ≠ [] := by
        rw [hdropJ]
        simpa using hIne
      rw [dropWhile_append_of_ne_nil _ _ hdropJne, hdropJ]
      rw [List.reverse_append, List.reverse_reverse, List.reverse_cons, List.reverse_reverse]
      rw [List.append_assoc, List.singleton_append]

theorem trim_joinRows :
    ∀ rows : List (List Char), rows ≠ [] →
      (∀ r ∈ rows, r ≠ [] ∧ ∀ c ∈ r, c.isWhitespace = false) →
      trimChars (joinRows rows) = intercalateNl rows := by
  intro rows hne hwf
  have hl : ltrimChars (joinRows rows) = joinRows rows := by
    cases rows with
    | nil => exact absurd rfl hne
    | cons r rest =>
      obtain ⟨hr, hrc⟩ := hwf r (List.mem_cons_self r rest)
      cases r with
      | nil => exact absurd rfl hr
      | cons c q =>
        rw [joinRows_cons, List.cons_append, ltrimChars,
          List.dropWhile_cons_of_neg (by simp [hrc c (List.mem_cons_self c q)])]
  rw [trimChars, hl]
  exact rtrim_joinRows rows hne hwf

theorem splitOnNl_intercalateNl :
    ∀ (r : List Char) (rest : List (List Char)), (∀ q ∈ r :: rest, '\n' ∉ q) →
      splitOnNl (intercalateNl (r :: rest)) = r :: rest := by
  intro r rest
  induction rest generalizing r with
  | nil =>
    intro hnl
    have : intercalateNl [r] = r := rfl
    rw [this, splitOnNl_no_nl r (hnl r (List.mem_cons_self r []))]
  | cons s t ih =>
    intro hnl
    rw [intercalateNl_cons_cons,
      splitOnNl_append _ _ (hnl r (List.mem_cons_self r (s :: t)))]
    rw [ih s (fun q hq => hnl q (List.mem_cons_of_mem r hq))]

theorem linesChars_trim_joinRows :
    ∀ rows : List (List Char), rows ≠ [] →
      (∀ r ∈ rows, r ≠ [] ∧ ∀ c ∈ r, c.isWhitespace = false) →
      linesChars (trimChars (joinRows rows)) = rows := by
  intro rows hne hwf
  rw [trim_joinRows rows hne hwf]
  have hnl : ∀ r ∈ rows, '\n' ∉ r := by
    intro r hr hmem
    have := (hwf r hr).2 '\n' hmem
    simp at this
  have hIne : intercalateNl rows ≠ [] := by
    cases rows with
    | nil => exact absurd rfl hne
    | cons r rest => exact intercalateNl_ne_nil r rest (hwf r (List.mem_cons_self r rest)).1
  rw [linesChars, if_neg (by simpa using hIne)]
  cases rows with
  | nil => exact absurd rfl hne
  | cons r rest => exact splitOnNl_intercalateNl r rest hnl

theorem parseRowAux_ok :
    ∀ (row : List Char) (y x : Nat),
      (∀ c ∈ row, c = READ_CHAR_ALIVE ∨ c = READ_CHAR_DEAD) →
      parseRowAux y x row = Except.ok (rowPoints y x row) := by
  intro row
  induction row with
  | nil => intro y x _; rfl
  | cons c rest ih =>
    intro y x h
    have hrest : ∀ d ∈ rest, d = READ_CHAR_ALIVE ∨ d = READ_CHAR_DEAD :=
      fun d hd => h d (List.mem_cons_of_mem c hd)
    rcases h c (List.mem_cons_self c rest) with hc | hc
    · simp only [parseRowAux, rowPoints, if_pos hc, ih _ _ hrest]
    · by_cases ha : c = READ_CHAR_ALIVE
      · simp only [parseRowAux, rowPoints, if_pos ha, ih _ _ hrest]
      · simp only [parseRowAux, rowPoints, if_neg ha, if_pos hc, ih _ _ hrest]

theorem parseLinesAux_ok :
    ∀ (rows : List (List Char)) (y : Nat),
      (∀ r ∈ rows, ∀ c ∈ r, c = READ_CHAR_ALIVE ∨ c = READ_CHAR_DEAD) →
      parseLinesAux y rows = Except.ok (linesPoints y rows) := by
  intro rows
  induction rows with
  | nil => intro y _; rfl
  | cons row rest ih =>
    intro y h
    have h1 := parseRowAux_ok row y 0 (h row (List.mem_cons_self row rest))
    have h2 := ih (y + 1) (fun r hr => h r (List.mem_cons_of_mem row hr))
    simp only [parseLinesAux, h1, h2, linesPoints]

theorem mem_rowPoints :
    ∀ (row : List Char) (y x : Nat) (p : Point),
      p ∈ rowPoints y x row ↔
        ∃ k, row[k]? = some READ_CHAR_ALIVE ∧
          p = ⟨((x + k : Nat) : Int), (y : Int)⟩ := by
  intro row
  induction row with
  | nil => intro y x p; simp [rowPoints]
  | cons c rest ih =>
    intro y x p
    by_cases hc : c = READ_CHAR_ALIVE
    · rw [rowPoints, if_pos hc, List.mem_cons, ih y (x + 1)]
      constructor
      · rintro (h0 | ⟨k, hget, hpe⟩)
        · exact ⟨0, by simp [hc], by simpa using h0⟩
        · refine ⟨k + 1, by simpa using hget, ?_⟩
          rw [hpe]
          congr 1
          omega
      · rintro ⟨k, hget, hpe⟩
        cases k with
        | zero =>
          left
          rw [hpe]
          simp
        | succ j =>
          right
          refine ⟨j, by simpa using hget, ?_⟩
          rw [hpe]
          congr 1
          omega
    · rw [rowPoints, if_neg hc, ih y (x + 1)]
      constructor
      · rintro ⟨k, hget, hpe⟩
        refine ⟨k + 1, by simpa using hget, ?_⟩
        rw [hpe]
        congr 1
        omega
      · rintro ⟨k, hget, hpe⟩
        cases k with
        | zero => exact absurd (by simpa using hget) hc
        | succ j =>
          refine ⟨j, by simpa using hget, ?_⟩
          rw [hpe]
          congr 1
          omega

theorem mem_linesPoints :
    ∀ (rows : List (List Char)) (y : Nat) (p : Point),
      p ∈ linesPoints y rows ↔
        ∃ j r, rows[j]? = some r ∧ p ∈ rowPoints (y + j) 0 r := by
  intro rows
  induction rows with
  | nil => intro y p; simp [linesPoints]
  | cons row rest ih =>
    intro y p
    rw [linesPoints, List.mem_append, ih (y + 1)]
    constructor
    · rintro (h0 | ⟨j, r, hget, hmem⟩)
      · exact ⟨0, row, by simp, by simpa using h0⟩
      · refine ⟨j + 1, r, by simpa using hget, ?_⟩
        have hy : y + (j + 1) = y + 1 + j := by omega
        rw [hy]
        exact hmem
    · rintro ⟨j, r, hget, hmem⟩
      cases j with
      | zero =>
        left
        have hr : row = r := by simpa using hget
        rw [← hr] at hmem
        simpa using hmem
      | succ i =>
        right
        refine ⟨i, r, by simpa using hget, ?_⟩
        have hy : y + 1 + i = y + (i + 1) := by omega
        rw [hy]
        exact hmem

theorem renderRow_length (g : Grid) (ca cd : Char) (x0 : Int) (w : Nat) (y : Int) :
    (renderRow g ca cd x0 w y).length = w := by
  rw [renderRow, List.length_map, List.length_range]

theorem renderRow_getElem (g : Grid) (ca cd : Char) (x0 : Int) (w : Nat) (y : Int)
    (k : Nat) (hk : k < w) :
    (renderRow g ca cd x0 w y)[k]?
      = some (if g.is_alive ⟨x0 + (k : Int), y⟩ then ca else cd) := by
  rw [renderRow, List.getElem?_map, List.getElem?_range hk]
  rfl

theorem renderRow_chars (g : Grid) (x0 : Int) (w : Nat) (y : Int) :
    ∀ c ∈ renderRow g READ_CHAR_ALIVE READ_CHAR_DEAD x0 w y,
      c = READ_CHAR_ALIVE ∨ c = READ_CHAR_DEAD := by
  intro c hc
  rw [renderRow] at hc
  obtain ⟨i, _, hci⟩ := List.mem_map.mp hc
  rw [← hci]
  by_cases ha : g.is_alive ⟨x0 + (i : Int), y⟩ = true
  · left; simp [ha]
  · right; simp [ha]

theorem joinRows_replicate_nil : ∀ n : Nat, joinRows (List.replicate n []) = List.replicate n '\n' := by
  intro n
  induction n with
  | zero => rfl
  | succ m ih => rw [List.replicate_succ, joinRows_cons, ih, List.nil_append, List.replicate_succ]

theorem dropWhile_ws_replicate_nl :
    ∀ n : Nat, (List.replicate n '\n').dropWhile Char.isWhitespace = [] := by
  intro n
  induction n with
  | zero => rfl
  | succ m ih => rw [List.replicate_succ, List.dropWhile_cons_of_pos (by decide), ih]

theorem linesPoints_replicate_nil :
    ∀ (n y : Nat), linesPoints y (List.replicate n []) = [] := by
  intro n
  induction n with
  | zero => intro y; rfl
  | succ m ih => intro y; rw [List.replicate_succ, linesPoints, ih]; rfl

theorem parse_render_window (G : Grid) (x0 y0 : Int) (w h : Nat) :
    Grid.fromChars (joinRows ((List.range h).map
        (fun (j : Nat) => renderRow G READ_CHAR_ALIVE READ_CHAR_DEAD x0 w (y0 + (j : Int)))))
      = Except.ok (Grid.new (linesPoints 0 ((List.range h).map
          (fun (j : Nat) => renderRow G READ_CHAR_ALIVE READ_CHAR_DEAD x0 w (y0 + (j : Int)))))) := by
  by_cases hh : h = 0
  · subst hh
    rfl
  · by_cases hw : w = 0
    · subst hw
      have hrows : (List.range h).map
          (fun (j : Nat) => renderRow G READ_CHAR_ALIVE READ_CHAR_DEAD x0 0 (y0 + (j : Int)))
            = List.replicate h [] := by
        apply List.eq_replicate_iff.mpr
        constructor
        · rw [List.length_map, List.length_range]
        · intro b hb
          obtain ⟨j, _, hjb⟩ := List.mem_map.mp hb
          rw [← hjb]
          rfl
      rw [hrows, joinRows_replicate_nil, linesPoints_replicate_nil]
      rw [Grid.fromChars]
      rw [trimChars, ltrimChars, dropWhile_ws_replicate_nl]
      rfl
    · set rows := (List.range h).map
        (fun (j : Nat) => renderRow G READ_CHAR_ALIVE READ_CHAR_DEAD x0 w (y0 + (j : Int)))
        with hrowsdef
      have hrowmem : ∀ r ∈ rows, ∃ j : Nat,
          r = renderRow G READ_CHAR_ALIVE READ_CHAR_DEAD x0 w (y0 + (j : Int)) := by
        intro r hr
        obtain ⟨j, _, hjr⟩ := List.mem_map.mp hr
        exact ⟨j, hjr.symm⟩
      have hchars : ∀ r ∈ rows, ∀ c ∈ r, c = READ_CHAR_ALIVE ∨ c = READ_CHAR_DEAD := by
        intro r hr
        obtain ⟨j, rfl⟩ := hrowmem r hr
        exact renderRow_chars G x0 w (y0 + (j : Int))
      have hne : rows ≠ [] := by
        apply List.ne_nil_of_length_pos
        rw [hrowsdef, List.length_map, List.length_range]
        omega
      have hwf : ∀ r ∈ rows, r ≠ [] ∧ ∀ c ∈ r, c.isWhitespace = false := by
        intro r hr
        constructor
        · obtain ⟨j, rfl⟩ := hrowmem r hr
          apply List.ne_nil_of_length_pos
          rw [renderRow_length]
          omega
        · intro c hc
          rcases hchars r hr c hc with hcx | hcx <;> rw [hcx] <;> decide
      have hfilter : rows.filter (fun l => !(l.head? = some '#' : Bool)) = rows := by
        apply List.filter_eq_self.mpr
        intro r hr
        cases hr2 : r with
        | nil => exact absurd hr2 (hwf r hr).1
        | cons c t =>
          have hcmem : c ∈ r := by rw [hr2]; exact List.mem_cons_self c t
          have : c ≠ '#' := by
            rcases hchars r hr c hcmem with hcx | hcx <;> rw [hcx] <;> decide
          simp [hr2, this]
      rw [Grid.fromChars]
      rw [linesChars_trim_joinRows rows hne hwf, hfilter,
        parseLinesAux_ok rows 0 hchars]

theorem bool_eq_of_iff : ∀ a b : Bool, (a = true ↔ b = true) → a = b := by decide

theorem mem_parsed_window (G : Grid) (x0 y0 : Int) (w h : Nat) (i j : Nat)
    (hi : i < w) (hj : j < h) :
    ((⟨(i : Int), (j : Int)⟩ : Point) ∈ linesPoints 0 ((List.range h).map
        (fun (jj : Nat) => renderRow G READ_CHAR_ALIVE READ_CHAR_DEAD x0 w (y0 + (jj : Int))))
      ↔ G.is_alive ⟨x0 + (i : Int), y0 + (j : Int)⟩ = true) := by
  rw [mem_linesPoints]
  constructor
  · rintro ⟨j2, r, hget, hmem⟩
    rw [List.getElem?_map] at hget
    have hj2 : j2 < h := by
      by_contra hge
      rw [List.getElem?_eq_none (by rw [List.length_range]; omega)] at hget
      simp at hget
    rw [List.getElem?_range hj2] at hget
    have hr : r = renderRow G READ_CHAR_ALIVE READ_CHAR_DEAD x0 w (y0 + (j2 : Int)) := by
      simpa using hget.symm
    subst hr
    obtain ⟨k, hgetk, hpe⟩ := (mem_rowPoints _ _ _ _).mp hmem
    have hij : (i : Int) = ((0 + k : Nat) : Int) ∧ (j : Int) = ((0 + j2 : Nat) : Int) := by
      have h1 := congrArg Point.x hpe
      have h2 := congrArg Point.y hpe
      simp at h1 h2
      constructor <;> simp <;> omega
    have hik : i = k := by
      have := hij.1
      omega
    have hjj2 : j = j2 := by
      have := hij.2
      omega
    subst hik
    subst hjj2
    rw [renderRow_getElem G READ_CHAR_ALIVE READ_CHAR_DEAD x0 w _ i hi] at hgetk
    by_cases ha : G.is_alive ⟨x0 + (i : Int), y0 + (j : Int)⟩ = true
    · exact ha
    · rw [if_neg ha] at hgetk
      simp at hgetk
      exact absurd hgetk (by decide)
  · intro halive
    refine ⟨j, renderRow G READ_CHAR_ALIVE READ_CHAR_DEAD x0 w (y0 + (j : Int)), ?_, ?_⟩
    · rw [List.getElem?_map, List.getElem?_range hj]
      rfl
    · refine (mem_rowPoints _ _ _ _).mpr ⟨i, ?_, ?_⟩
      · rw [renderRow_getElem G READ_CHAR_ALIVE READ_CHAR_DEAD x0 w _ i hi, if_pos halive]
      · congr 1 <;> omega

theorem render_shift_window (G : Grid) (x0 y0 : Int) (w h : Nat) :
    (List.range h).map (fun (j : Nat) =>
        renderRow (Grid.new (linesPoints 0 ((List.range h).map
            (fun (jj : Nat) => renderRow G READ_CHAR_ALIVE READ_CHAR_DEAD x0 w (y0 + (jj : Int))))))
          READ_CHAR_ALIVE READ_CHAR_DEAD 0 w ((0 : Int) + (j : Int)))
      = (List.range h).map
          (fun (j : Nat) => renderRow G READ_CHAR_ALIVE READ_CHAR_DEAD x0 w (y0 + (j : Int))) := by
  apply List.map_congr_left
  intro j hj
  have hjh : j < h := List.mem_range.mp hj
  rw [renderRow, renderRow]
  apply List.map_congr_left
  intro i hi
  have hiw : i < w := List.mem_range.mp hi
  have halive : (Grid.new (linesPoints 0 ((List.range h).map
        (fun (jj : Nat) => renderRow G READ_CHAR_ALIVE READ_CHAR_DEAD x0 w (y0 + (jj : Int)))))).is_alive
        ⟨(0 : Int) + (i : Int), (0 : Int) + (j : Int)⟩
      = G.is_alive ⟨x0 + (i : Int), y0 + (j : Int)⟩ := by
    apply bool_eq_of_iff
    have hpt : (⟨(0 : Int) + (i : Int), (0 : Int) + (j : Int)⟩ : Point)
        = ⟨(i : Int), (j : Int)⟩ := by
      congr 1 <;> omega
    rw [hpt]
    have hmem := mem_parsed_window G x0 y0 w h i j hiw hjh
    rw [Grid.is_alive]
    simp only [Grid.new, List.mem_toFinset, decide_eq_true_eq]
    exact hmem
  rw [halive]

/-- C9 counterexample: with the default configured glyphs (or any
configured alive glyph other than `x`) parsing the rendered frame does
not succeed — the parser only accepts its fixed glyphs `x`/`.` — and
even with `x`/`.` glyphs, re-rendering the parsed grid at the *same*
viewport does not reproduce the text when the window is not anchored at
the origin, because parsing rebases coordinates at `(0,0)`. -/
theorem draw_parse_roundtrip_cex :
    Grid.fromStr oGlyphGame.draw = Except.error "unknown character: o" ∧
    Grid.fromStr farCellGame.draw = Except.ok (Grid.new [⟨0, 0⟩]) ∧
    ({ farCellGame with grid := Grid.new [⟨0, 0⟩] } : Game).draw ≠ farCellGame.draw := by
  refine ⟨by decide, by decide, by decide⟩

/-- C9 (corrected): for every Game whose configured glyphs are the
parser's fixed glyphs `x`/`.` and whose view mode yields a window
(`Fixed` or `Centered`), parsing the text produced by `draw()` succeeds,
and re-rendering the parsed grid at a window of the same dimensions
anchored at the origin — the parsed grid is rebased there — reproduces
the original text exactly. -/
theorem draw_parse_roundtrip :
    ∀ (g : Game) (win : Point × Point),
      g.opts.char_alive = READ_CHAR_ALIVE → g.opts.char_dead = READ_CHAR_DEAD →
      g.viewport' = some win →
      ∃ P : Grid, Grid.fromStr g.draw = Except.ok P ∧
        String.mk (renderChars P READ_CHAR_ALIVE READ_CHAR_DEAD Point.origin
          ⟨win.2.x - win.1.x, win.2.y - win.1.y⟩) = g.draw := by
  intro g win hca hcd hwin
  have hdraw : g.draw
      = String.mk (renderChars g.grid READ_CHAR_ALIVE READ_CHAR_DEAD win.1 win.2) := by
    rw [Game.draw, Game.draw?, hwin]
    simp [Game.draw_viewport, hca, hcd]
  set w := (win.2.x + 1 - win.1.x).toNat with hwdef
  set h := (win.2.y + 1 - win.1.y).toNat with hhdef
  refine ⟨Grid.new (linesPoints 0 ((List.range h).map
      (fun (j : Nat) => renderRow g.grid READ_CHAR_ALIVE READ_CHAR_DEAD win.1.x w
        (win.1.y + (j : Int))))), ?_, ?_⟩
  · rw [hdraw, Grid.fromStr]
    exact parse_render_window g.grid win.1.x win.1.y w h
  · rw [hdraw]
    congr 1
    show joinRows _ = joinRows _
    congr 1
    have hw2 : (win.2.x - win.1.x + 1 - Point.origin.x).toNat = w := by
      rw [hwdef]
      show (win.2.x - win.1.x + 1 - 0).toNat = (win.2.x + 1 - win.1.x).toNat
      omega
    have hh2 : (win.2.y - win.1.y + 1 - Point.origin.y).toNat = h := by
      rw [hhdef]
      show (win.2.y - win.1.y + 1 - 0).toNat = (win.2.y + 1 - win.1.y).toNat
      omega
    rw [hw2, hh2]
    exact render_shift_window g.grid win.1.x win.1.y w h

/-- C9 witness: the amended round trip instantiated on a blinker game
with `x`/`.` glyphs and a fixed view. -/
theorem draw_parse_roundtrip_witness :
    ∃ P : Grid,
      Grid.fromStr fixedBlinkerGame.draw = Except.ok P ∧
      String.mk (renderChars P READ_CHAR_ALIVE READ_CHAR_DEAD Point.origin ⟨0, 2⟩)
        = fixedBlinkerGame.draw :=
  draw_parse_roundtrip fixedBlinkerGame (⟨1, 0⟩, ⟨1, 2⟩) rfl rfl (by decide)
